import Mathlib

/-!
Verification of the procedural terrain simulator (src/main.py) against its
natural-language specification.

Modelling conventions:
* Python floats are modelled exactly: mesh geometry and camera state use the
  rationals, the noise pipeline (which applies a square root) uses the reals.
* The external coherent-noise primitives (noise.pnoise2, noise.snoise2) are
  black boxes; they appear as universally quantified function parameters.
* The Python global random generator (random.seed / random.random) is modelled
  as an abstract state machine: a state type sigma, a re-seed function
  seedFn : Int -> sigma and a draw function nextFn : sigma -> Real x sigma
  returning one uniform sample in [0,1) together with the successor state.
  State threading is explicit, so re-seeding is visible in the model.
* The float value inf (initial accumulator of the Voronoi minimum-distance
  loop) is modelled as the top element of EReal; the final value is converted
  back to Real, which is faithful because the point list is never empty.
-/

/-! ## Configuration constants (src/main.py lines 52-70).
TERRAIN_SCALE, ZOOM_SPEED and ROTATION_SPEED are never rewritten by the CLI
(main only rewrites TERRAIN_SIZE and the noise parameters). -/

def TERRAIN_SCALE : ℚ := 1/2

def ZOOM_SPEED : ℚ := 1/2

def ROTATION_SPEED : ℚ := 1

/-! ## Mesh geometry (Terrain._create_vertices / _create_triangles / render) -/

/-- A 3D vertex as stored in Terrain.vertices; floats modelled as rationals. -/
structure Vec3 where
  x : ℚ
  y : ℚ
  z : ℚ
deriving DecidableEq, Repr

/-- Componentwise vector subtraction (numpy v2 - v1 in Terrain.render). -/
def vsub (u v : Vec3) : Vec3 :=
  ⟨u.x - v.x, u.y - v.y, u.z - v.z⟩

/-- The numpy cross product np.cross of two 3-vectors (Terrain.render). -/
def cross (u v : Vec3) : Vec3 :=
  ⟨u.y * v.z - u.z * v.y, u.z * v.x - u.x * v.z, u.x * v.y - u.y * v.x⟩

/-- Squared Euclidean norm of a vector. -/
def normSq (v : Vec3) : ℚ :=
  v.x ^ 2 + v.y ^ 2 + v.z ^ 2

/-- Terrain._create_vertices: the nested loop
for i in range(size): for j in range(size): append
((i - size/2) * TERRAIN_SCALE, height_map[i][j] * height_scale,
 (j - size/2) * TERRAIN_SCALE). -/
def createVertices (size : ℕ) (hm : ℕ → ℕ → ℚ) (height_scale : ℚ) : List Vec3 :=
  (List.range size).flatMap (fun i =>
    (List.range size).map (fun j =>
      ⟨((i : ℚ) - (size : ℚ) / 2) * TERRAIN_SCALE,
       hm i j * height_scale,
       ((j : ℚ) - (size : ℚ) / 2) * TERRAIN_SCALE⟩))

/-- Terrain._create_triangles: for each cell (i, j) with i, j < size - 1,
with a = i*size+j, b = i*size+(j+1), c = (i+1)*size+j, d = (i+1)*size+(j+1),
append (a, b, c) then (b, d, c). -/
def createTriangles (size : ℕ) : List (ℕ × ℕ × ℕ) :=
  (List.range (size - 1)).flatMap (fun i =>
    (List.range (size - 1)).flatMap (fun j =>
      [(i * size + j, i * size + (j + 1), (i + 1) * size + j),
       (i * size + (j + 1), (i + 1) * size + (j + 1), (i + 1) * size + j)]))

/-- Python list indexing self.vertices[k] (always in bounds in render). -/
def vtx (vs : List Vec3) (k : ℕ) : Vec3 :=
  ((vs.get? k).getD ⟨0, 0, 0⟩)

/-- The un-normalized face normal computed in Terrain.render:
np.cross(v2 - v1, v3 - v1) for a triangle (t1, t2, t3) of vertex indices. -/
def faceCross (vs : List Vec3) (t : ℕ × ℕ × ℕ) : Vec3 :=
  cross (vsub (vtx vs t.2.1) (vtx vs t.1)) (vsub (vtx vs t.2.2) (vtx vs t.1))

/-- Normalization normal / np.linalg.norm(normal) from Terrain.render,
over the reals (the norm is a square root). -/
noncomputable def normalize3 (v : ℝ × ℝ × ℝ) : ℝ × ℝ × ℝ :=
  let n := Real.sqrt (v.1 ^ 2 + v.2.1 ^ 2 + v.2.2 ^ 2)
  (v.1 / n, v.2.1 / n, v.2.2 / n)

/-- Embedding of a rational vector into real coordinates. -/
def toR3 (v : Vec3) : ℝ × ℝ × ℝ :=
  ((v.x : ℝ), (v.y : ℝ), (v.z : ℝ))

/-- The per-face normal submitted to glNormal3fv in Terrain.render. -/
noncomputable def renderFaceNormal (vs : List Vec3) (t : ℕ × ℕ × ℕ) : ℝ × ℝ × ℝ :=
  normalize3 (toR3 (faceCross vs t))

/-! ### Indexing lemmas for flatMap over List.range -/

lemma flatMapRange_length {α : Type} (f : ℕ → List α) (L n : ℕ)
    (hf : ∀ i, i < n → (f i).length = L) :
    ((List.range n).flatMap f).length = n * L := by
  induction n with
  | zero => simp
  | succ m ih =>
    rw [List.range_succ, List.flatMap_append, List.length_append,
      ih (fun i hi => hf i (Nat.lt_succ_of_lt hi))]
    simp [hf m (Nat.lt_succ_self m), Nat.succ_mul]

lemma flatMapRange_get {α : Type} (f : ℕ → List α) (L n : ℕ)
    (hf : ∀ i, i < n → (f i).length = L) (i j : ℕ) (hi : i < n) (hj : j < L) :
    ((List.range n).flatMap f).get? (i * L + j) = (f i).get? j := by
  induction n with
  | zero => omega
  | succ m ih =>
    rw [List.range_succ, List.flatMap_append]
    rcases Nat.lt_or_ge i m with h | h
    · rw [List.get?_append]
      · exact ih (fun k hk => hf k (Nat.lt_succ_of_lt hk)) h
      · rw [flatMapRange_length f L m (fun k hk => hf k (Nat.lt_succ_of_lt hk))]
        have : i + 1 ≤ m := h
        calc i * L + j < i * L + L := by omega
          _ = (i + 1) * L := by ring
          _ ≤ m * L := Nat.mul_le_mul_right L this
    · have him : i = m := by omega
      subst him
      rw [List.get?_append_right]
      · rw [flatMapRange_length f L i (fun k hk => hf k (Nat.lt_succ_of_lt hk))]
        simp [Nat.add_sub_cancel_left]
      · rw [flatMapRange_length f L i (fun k hk => hf k (Nat.lt_succ_of_lt hk))]
        omega

lemma createVertices_get (size : ℕ) (hm : ℕ → ℕ → ℚ) (height_scale : ℚ)
    (i j : ℕ) (hi : i < size) (hj : j < size) :
    (createVertices size hm height_scale).get? (i * size + j) =
      some ⟨((i : ℚ) - (size : ℚ) / 2) * TERRAIN_SCALE,
            hm i j * height_scale,
            ((j : ℚ) - (size : ℚ) / 2) * TERRAIN_SCALE⟩ := by
  unfold createVertices
  rw [flatMapRange_get _ size size (fun k _ => by simp) i j hi hj,
    List.get?_map, List.get?_range hj]
  rfl

lemma createVertices_length (size : ℕ) (hm : ℕ → ℕ → ℚ) (height_scale : ℚ) :
    (createVertices size hm height_scale).length = size * size := by
  unfold createVertices
  exact flatMapRange_length _ size size (fun k _ => by simp)

lemma createTriangles_inner_length (size i : ℕ) :
    ((List.range (size - 1)).flatMap (fun j =>
      [(i * size + j, i * size + (j + 1), (i + 1) * size + j),
       (i * size + (j + 1), (i + 1) * size + (j + 1), (i + 1) * size + j)])).length
      = (size - 1) * 2 :=
  flatMapRange_length _ 2 (size - 1) (fun _ _ => rfl)

lemma createTriangles_length (size : ℕ) :
    (createTriangles size).length = (size - 1) * ((size - 1) * 2) := by
  unfold createTriangles
  exact flatMapRange_length _ ((size - 1) * 2) (size - 1)
    (fun i _ => createTriangles_inner_length size i)

lemma createTriangles_get (size i j : ℕ) (hi : i < size - 1) (hj : j < size - 1) :
    (createTriangles size).get? (i * ((size - 1) * 2) + (j * 2)) =
      some (i * size + j, i * size + (j + 1), (i + 1) * size + j) ∧
    (createTriangles size).get? (i * ((size - 1) * 2) + (j * 2 + 1)) =
      some (i * size + (j + 1), (i + 1) * size + (j + 1), (i + 1) * size + j) := by
  unfold createTriangles
  constructor
  · rw [flatMapRange_get _ ((size - 1) * 2) (size - 1)
        (fun k _ => createTriangles_inner_length size k) i (j * 2) hi (by omega)]
    have h2 := flatMapRange_get
      (fun k => [(i * size + k, i * size + (k + 1), (i + 1) * size + k),
                 (i * size + (k + 1), (i + 1) * size + (k + 1), (i + 1) * size + k)])
      2 (size - 1) (fun _ _ => rfl) j 0 hj (by omega)
    simpa using h2
  · rw [flatMapRange_get _ ((size - 1) * 2) (size - 1)
        (fun k _ => createTriangles_inner_length size k) i (j * 2 + 1) hi (by omega)]
    have h2 := flatMapRange_get
      (fun k => [(i * size + k, i * size + (k + 1), (i + 1) * size + k),
                 (i * size + (k + 1), (i + 1) * size + (k + 1), (i + 1) * size + k)])
      2 (size - 1) (fun _ _ => rfl) j 1 hj (by omega)
    simpa using h2

lemma mem_createTriangles {size : ℕ} {t : ℕ × ℕ × ℕ}
    (ht : t ∈ createTriangles size) :
    ∃ i j, i < size - 1 ∧ j < size - 1 ∧
      (t = (i * size + j, i * size + (j + 1), (i + 1) * size + j) ∨
       t = (i * size + (j + 1), (i + 1) * size + (j + 1), (i + 1) * size + j)) := by
  unfold createTriangles at ht
  simp only [List.mem_flatMap, List.mem_range, List.mem_cons,
    List.mem_singleton, List.not_mem_nil, or_false] at ht
  obtain ⟨i, hi, j, hj, h⟩ := ht
  exact ⟨i, j, hi, hj, h⟩

/-! ## Camera state machine (main / handle_events / handle_keyboard_input) -/

/-- The camera_state dict initialized in main; floats modelled as rationals. -/
structure Camera where
  rotation_x : ℚ
  rotation_y : ℚ
  zoom_distance : ℚ
  mouse_captured : Bool
deriving DecidableEq, Repr

/-- The initial_state dict captured in main for the E-key reset. -/
structure Snapshot where
  rotation_x : ℚ
  rotation_y : ℚ
  zoom_distance : ℚ
deriving DecidableEq, Repr

/-- camera_state as initialized in main (rotation 0, zoom 10, not captured). -/
def initialCamera : Camera :=
  ⟨0, 0, 10, false⟩

/-- Capturing the three reset fields of a camera state (main, initial_state). -/
def snapshotOf (c : Camera) : Snapshot :=
  ⟨c.rotation_x, c.rotation_y, c.zoom_distance⟩

/-- The snapshot captured at startup, right after camera_state is built. -/
def initialSnapshot : Snapshot :=
  snapshotOf initialCamera

/-- The camera-relevant inputs of one iteration of the loop: the KEYDOWN
events handled in handle_events (E, Q, plus or equals, minus) and the
held-arrow-key rotations applied by handle_keyboard_input. -/
inductive CamInput where
  | keyE : CamInput
  | keyQ : CamInput
  | zoomIn : CamInput
  | zoomOut : CamInput
  | arrowLeft : CamInput
  | arrowRight : CamInput
  | arrowUp : CamInput
  | arrowDown : CamInput
deriving DecidableEq, Repr

/-- One camera input applied to the camera state, exactly as in
handle_events (KEYDOWN branches) and handle_keyboard_input. -/
def applyInput (init : Snapshot) (s : Camera) : CamInput → Camera
  | .keyE =>
      { s with rotation_x := init.rotation_x,
               rotation_y := init.rotation_y,
               zoom_distance := init.zoom_distance }
  | .keyQ => { s with mouse_captured := !s.mouse_captured }
  | .zoomIn => { s with zoom_distance := max 2 (s.zoom_distance - ZOOM_SPEED) }
  | .zoomOut => { s with zoom_distance := min 20 (s.zoom_distance + ZOOM_SPEED) }
  | .arrowLeft => { s with rotation_y := s.rotation_y + ROTATION_SPEED }
  | .arrowRight => { s with rotation_y := s.rotation_y - ROTATION_SPEED }
  | .arrowUp => { s with rotation_x := s.rotation_x + ROTATION_SPEED }
  | .arrowDown => { s with rotation_x := s.rotation_x - ROTATION_SPEED }

/-- Applying a finite sequence of inputs starting from the startup state,
with the snapshot captured at startup. -/
def runInputs (evs : List CamInput) : Camera :=
  evs.foldl (applyInput initialSnapshot) initialCamera

/-! ## Noise pipeline (Terrain._generate_height_map / _voronoi_noise) -/

/-- The six values accepted by the argparse choices list of the --noise
option in parse_arguments. -/
def NOISE_CHOICES : List String :=
  ["perlin", "simplex", "ridged", "billow", "voronoi", "combined"]

/-- The argparse handling of the --noise option: a value outside the choices
list makes argparse exit with a usage error (modelled as none); an accepted
value is passed through unchanged. -/
def parseNoiseArg (s : String) : Option String :=
  if s ∈ NOISE_CHOICES then some s else none

/-- The loop of _voronoi_noise drawing the feature points:
for each of n iterations append (random.random() * 10, random.random() * 10),
threading the generator state; returns the points and the final state. -/
def drawPoints {σ : Type} (nextFn : σ → ℝ × σ) : ℕ → σ → List (ℝ × ℝ) × σ
  | 0, g => ([], g)
  | n + 1, g =>
      let r1 := nextFn g
      let r2 := nextFn r1.2
      let rest := drawPoints nextFn n r2.2
      ((r1.1 * 10, r2.1 * 10) :: rest.1, rest.2)

/-- Terrain._voronoi_noise. random.seed(self.seed) discards the incoming
generator state _g and re-seeds; 10 feature points are drawn; min_dist starts
at float inf (top of EReal) and folds min over the Euclidean distances; the
return value is min_dist / 2.0 - 0.5. The pair also carries the generator
state left behind by the draws. -/
noncomputable def voronoiNoise {σ : Type} (seedFn : ℤ → σ) (nextFn : σ → ℝ × σ)
    (seed : ℤ) (x y : ℝ) (_g : σ) : ℝ × σ :=
  let g0 := seedFn seed
  let pg := drawPoints nextFn 10 g0
  let minDist : EReal := pg.1.foldl
    (fun m p => min m ((Real.sqrt ((x - p.1) ^ 2 + (y - p.2) ^ 2) : ℝ) : EReal)) ⊤
  (minDist.toReal / 2 - 1 / 2, pg.2)

/-- The feature-point set used by a voronoi evaluation: a function of the
seed alone, because of the re-seed at the top of _voronoi_noise. -/
def voronoiPts {σ : Type} (seedFn : ℤ → σ) (nextFn : σ → ℝ × σ) (seed : ℤ) :
    List (ℝ × ℝ) :=
  (drawPoints nextFn 10 (seedFn seed)).1

/-- One cell of Terrain._generate_height_map: computes nx, ny and branches on
self.noise_type; pnoise and snoise are the black-box noise primitives; the
generator state g is threaded through (only the voronoi branch touches it).
Returns the height value and the outgoing generator state. -/
noncomputable def heightAtSt {σ : Type}
    (pnoise snoise : ℝ → ℝ → ℕ → ℝ → ℝ → ℤ → ℝ)
    (seedFn : ℤ → σ) (nextFn : σ → ℝ × σ)
    (noiseType : String) (seed : ℤ) (size octaves : ℕ)
    (persistence lacunarity scale : ℝ) (g : σ) (i j : ℕ) : ℝ × σ :=
  let nx : ℝ := (i : ℝ) / (size : ℝ) * scale
  let ny : ℝ := (j : ℝ) / (size : ℝ) * scale
  if noiseType = "perlin" then
    (pnoise nx ny octaves persistence lacunarity seed, g)
  else if noiseType = "simplex" then
    (snoise nx ny octaves persistence lacunarity seed, g)
  else if noiseType = "ridged" then
    (1 - |snoise nx ny octaves persistence lacunarity seed|, g)
  else if noiseType = "billow" then
    (|pnoise nx ny octaves persistence lacunarity seed| * 2 - 1, g)
  else if noiseType = "voronoi" then
    voronoiNoise seedFn nextFn seed nx ny g
  else if noiseType = "combined" then
    ((pnoise nx ny octaves persistence lacunarity seed +
      snoise (nx * 2) (ny * 2) octaves persistence lacunarity (seed + 1000)) * (1/2 : ℝ), g)
  else
    (pnoise nx ny octaves persistence lacunarity seed, g)

/-- A black-box noise primitive used to instantiate witnesses. -/
def pzero : ℝ → ℝ → ℕ → ℝ → ℝ → ℤ → ℝ := fun _ _ _ _ _ _ => 0

/-- A trivial generator-state type used to instantiate witnesses. -/
def unitSeed : ℤ → Unit := fun _ => ()

/-- A generator whose every uniform draw returns the same value r. -/
def constNext (r : ℝ) : Unit → ℝ × Unit := fun g => (r, g)

/-- The feature points drawn by a voronoi call that enters with generator
state _g: the re-seed makes the result independent of _g. -/
def voronoiPtsFrom {σ : Type} (seedFn : ℤ → σ) (nextFn : σ → ℝ × σ) (seed : ℤ)
    (_g : σ) : List (ℝ × ℝ) :=
  (drawPoints nextFn 10 (seedFn seed)).1

/-! ### Helper lemmas about folded minima and the drawn points -/

lemma foldl_minf_le_init {α β : Type} [LinearOrder α] (f : β → α) (l : List β) (a : α) :
    l.foldl (fun m p => min m (f p)) a ≤ a := by
  induction l generalizing a with
  | nil => simp
  | cons q l ih => exact le_trans (ih (min a (f q))) (min_le_left _ _)

lemma foldl_minf_le_of_mem {α β : Type} [LinearOrder α] (f : β → α) {l : List β}
    {p : β} (hp : p ∈ l) (a : α) :
    l.foldl (fun m p => min m (f p)) a ≤ f p := by
  induction l generalizing a with
  | nil => cases hp
  | cons q l ih =>
    rcases List.mem_cons.mp hp with h | h
    · subst h
      exact le_trans (foldl_minf_le_init f l _) (min_le_right _ _)
    · exact ih h _

lemma le_foldl_minf {α β : Type} [LinearOrder α] (f : β → α) {l : List β}
    {c : α} {a : α} (ha : c ≤ a) (hl : ∀ p ∈ l, c ≤ f p) :
    c ≤ l.foldl (fun m p => min m (f p)) a := by
  induction l generalizing a with
  | nil => simpa using ha
  | cons q l ih =>
    exact ih (le_min ha (hl q (List.mem_cons_self q l)))
      (fun p hp => hl p (List.mem_cons_of_mem q hp))

lemma foldl_minf_replicate {α β : Type} [LinearOrder α] (f : β → α) (q : β)
    (n : ℕ) (a : α) :
    (List.replicate (n + 1) q).foldl (fun m p => min m (f p)) a = min a (f q) := by
  induction n generalizing a with
  | zero => simp
  | succ m ih =>
    rw [List.replicate_succ, List.foldl_cons, ih, min_assoc, min_self]

lemma drawPoints_const (r : ℝ) (n : ℕ) (g : Unit) :
    (drawPoints (constNext r) n g).1 = List.replicate n (r * 10, r * 10) := by
  induction n with
  | zero => rfl
  | succ m ih => simp [drawPoints, constNext, ih, List.replicate_succ]

lemma foldl_minf_attains {α β : Type} [LinearOrder α] (f : β → α) (l : List β)
    (a : α) :
    l.foldl (fun m p => min m (f p)) a = a ∨
    ∃ p ∈ l, l.foldl (fun m p => min m (f p)) a = f p := by
  induction l generalizing a with
  | nil => left; rfl
  | cons q l ih =>
    rcases ih (min a (f q)) with h | ⟨p, hp, h⟩
    · rcases le_total a (f q) with hle | hle
      · left
        rw [List.foldl_cons, h, min_eq_left hle]
      · right
        exact ⟨q, List.mem_cons_self q l, by rw [List.foldl_cons, h, min_eq_right hle]⟩
    · right
      exact ⟨p, List.mem_cons_of_mem q hp, by rw [List.foldl_cons]; exact h⟩

lemma drawPoints_length {σ : Type} (nextFn : σ → ℝ × σ) (n : ℕ) (g : σ) :
    (drawPoints nextFn n g).1.length = n := by
  induction n generalizing g with
  | zero => rfl
  | succ m ih => simp [drawPoints, ih]

lemma toReal_nonneg_of_ereal {x : EReal} (hx : 0 ≤ x) : 0 ≤ x.toReal := by
  induction x using EReal.rec with
  | h_bot => simp
  | h_real r =>
    rw [EReal.toReal_coe]
    exact EReal.coe_nonneg.mp hx
  | h_top => simp

/-! ## Claim theorems -/

/-- C1: for every triangle of the generated mesh, the per-face normal
computed in Terrain.render equals normalize(cross(v2 - v1, v3 - v1)); the
cross product of every mesh triangle has y component TERRAIN_SCALE squared,
hence is never the zero vector, so the normalization never divides by a
zero-length vector and the degenerate (zero-area) case never arises on a
generated mesh, whatever the height map is. -/
theorem C1_face_normals (size : ℕ) (hm : ℕ → ℕ → ℚ) (hs : ℚ)
    (t : ℕ × ℕ × ℕ) (ht : t ∈ createTriangles size) :
    renderFaceNormal (createVertices size hm hs) t
      = normalize3 (toR3 (faceCross (createVertices size hm hs) t)) ∧
    (faceCross (createVertices size hm hs) t).y = TERRAIN_SCALE ^ 2 ∧
    faceCross (createVertices size hm hs) t ≠ ⟨0, 0, 0⟩ := by
  obtain ⟨i, j, hi, hj, hcase⟩ := mem_createTriangles ht
  have hy2 : (faceCross (createVertices size hm hs) t).y = TERRAIN_SCALE ^ 2 := by
    rcases hcase with h | h
    · subst h
      have e1 := createVertices_get size hm hs i j (by omega) (by omega)
      have e2 := createVertices_get size hm hs i (j + 1) (by omega) (by omega)
      have e3 := createVertices_get size hm hs (i + 1) j (by omega) (by omega)
      simp only [faceCross, vtx, e1, e2, e3, Option.getD_some, vsub, cross]
      push_cast
      ring
    · subst h
      have e1 := createVertices_get size hm hs i (j + 1) (by omega) (by omega)
      have e2 := createVertices_get size hm hs (i + 1) (j + 1) (by omega) (by omega)
      have e3 := createVertices_get size hm hs (i + 1) j (by omega) (by omega)
      simp only [faceCross, vtx, e1, e2, e3, Option.getD_some, vsub, cross]
      push_cast
      ring
  refine ⟨rfl, hy2, fun hEq => ?_⟩
  rw [hEq] at hy2
  norm_num [TERRAIN_SCALE] at hy2

/-- Witness for C1 at a concrete mesh: size 3, flat height map, triangle
(0, 1, 3) of the generated triangle list. -/
theorem C1_witness :
    ((0, 1, 3) ∈ createTriangles 3) ∧
    (renderFaceNormal (createVertices 3 (fun _ _ => 0) 2) (0, 1, 3)
       = normalize3 (toR3 (faceCross (createVertices 3 (fun _ _ => 0) 2) (0, 1, 3))) ∧
     (faceCross (createVertices 3 (fun _ _ => 0) 2) (0, 1, 3)).y = TERRAIN_SCALE ^ 2 ∧
     faceCross (createVertices 3 (fun _ _ => 0) 2) (0, 1, 3) ≠ ⟨0, 0, 0⟩) :=
  ⟨by decide, C1_face_normals 3 (fun _ _ => 0) 2 (0, 1, 3) (by decide)⟩

/-- C4: for every size at least 2 and every height map (hence every seed and
noise type), the build produces exactly size squared vertices and
2 * (size - 1) squared triangles. -/
theorem C4_mesh_counts (size : ℕ) (_h2 : 2 ≤ size) (hm : ℕ → ℕ → ℚ) (hs : ℚ) :
    (createVertices size hm hs).length = size ^ 2 ∧
    (createTriangles size).length = 2 * (size - 1) ^ 2 := by
  constructor
  · rw [createVertices_length]
    ring
  · rw [createTriangles_length]
    generalize size - 1 = m
    ring

/-- Witness for C4 at size 3: 9 vertices and 8 triangles. -/
theorem C4_witness :
    2 ≤ 3 ∧
    ((createVertices 3 (fun _ _ => 0) 1).length = 3 ^ 2 ∧
     (createTriangles 3).length = 2 * (3 - 1) ^ 2) :=
  ⟨by norm_num, C4_mesh_counts 3 (by norm_num) (fun _ _ => 0) 1⟩

/-- C5: for every cell (i, j) with i, j < size - 1, the triangle list holds,
consecutively and in this winding order, (a, b, c) and then (b, d, c) with
a = i*size+j, b = a+1, c = (i+1)*size+j, d = c+1. -/
theorem C5_triangulation (size i j : ℕ) (hi : i < size - 1) (hj : j < size - 1) :
    (createTriangles size).get? (i * ((size - 1) * 2) + j * 2) =
      some (i * size + j, (i * size + j) + 1, (i + 1) * size + j) ∧
    (createTriangles size).get? (i * ((size - 1) * 2) + (j * 2 + 1)) =
      some ((i * size + j) + 1, ((i + 1) * size + j) + 1, (i + 1) * size + j) :=
  createTriangles_get size i j hi hj

/-- Witness for C5: cell (0, 0) at size 3 emits (0, 1, 3) then (1, 4, 3). -/
theorem C5_witness :
    (0 < 3 - 1) ∧
    ((createTriangles 3).get? 0 = some (0, 1, 3) ∧
     (createTriangles 3).get? 1 = some (1, 4, 3)) :=
  ⟨by norm_num, by simpa using C5_triangulation 3 0 0 (by norm_num) (by norm_num)⟩

/-- C6: the vertex stored at flat position i*size+j is exactly
((i - size/2) * TERRAIN_SCALE, height[i][j] * height_scale,
 (j - size/2) * TERRAIN_SCALE), centering the grid on the origin. -/
theorem C6_vertex_placement (size : ℕ) (hm : ℕ → ℕ → ℚ) (hs : ℚ) (i j : ℕ)
    (hi : i < size) (hj : j < size) :
    (createVertices size hm hs).get? (i * size + j) =
      some ⟨((i : ℚ) - (size : ℚ) / 2) * TERRAIN_SCALE, hm i j * hs,
            ((j : ℚ) - (size : ℚ) / 2) * TERRAIN_SCALE⟩ :=
  createVertices_get size hm hs i j hi hj

/-- Witness for C6 at size 3, i = 1, j = 2, constant height 1, scale 2:
the vertex at flat index 5 is (-1/4, 2, 1/4). -/
theorem C6_witness :
    ((1 : ℕ) < 3 ∧ (2 : ℕ) < 3) ∧
    (createVertices 3 (fun _ _ => 1) 2).get? 5 = some ⟨-(1/4), 2, 1/4⟩ := by
  refine ⟨⟨by norm_num, by norm_num⟩, ?_⟩
  have h := C6_vertex_placement 3 (fun _ _ => 1) 2 1 2 (by norm_num) (by norm_num)
  norm_num [TERRAIN_SCALE] at h
  rw [List.get?_eq_getElem?]
  exact h

lemma applyInput_zoom_bounds (init : Snapshot)
    (h2i : 2 ≤ init.zoom_distance) (h20i : init.zoom_distance ≤ 20)
    (s : Camera) (h2 : 2 ≤ s.zoom_distance) (h20 : s.zoom_distance ≤ 20)
    (e : CamInput) :
    2 ≤ (applyInput init s e).zoom_distance ∧
    (applyInput init s e).zoom_distance ≤ 20 := by
  cases e with
  | keyE => exact ⟨h2i, h20i⟩
  | keyQ => exact ⟨h2, h20⟩
  | zoomIn =>
      refine ⟨le_max_left _ _, max_le (by norm_num) ?_⟩
      rw [show ZOOM_SPEED = 1/2 from rfl]
      linarith
  | zoomOut =>
      refine ⟨le_min (by norm_num) ?_, min_le_left _ _⟩
      rw [show ZOOM_SPEED = 1/2 from rfl]
      linarith
  | arrowLeft => exact ⟨h2, h20⟩
  | arrowRight => exact ⟨h2, h20⟩
  | arrowUp => exact ⟨h2, h20⟩
  | arrowDown => exact ⟨h2, h20⟩

lemma foldl_zoom_bounds (init : Snapshot)
    (h2i : 2 ≤ init.zoom_distance) (h20i : init.zoom_distance ≤ 20) :
    ∀ (evs : List CamInput) (s : Camera),
      2 ≤ s.zoom_distance → s.zoom_distance ≤ 20 →
      2 ≤ (evs.foldl (applyInput init) s).zoom_distance ∧
      (evs.foldl (applyInput init) s).zoom_distance ≤ 20 := by
  intro evs
  induction evs with
  | nil => intro s h2 h20; exact ⟨h2, h20⟩
  | cons e evs ih =>
      intro s h2 h20
      have h := applyInput_zoom_bounds init h2i h20i s h2 h20 e
      exact ih (applyInput init s e) h.1 h.2

/-- C7: starting from the startup camera state (zoom distance 10.0), after
any finite sequence of inputs (zoom in, zoom out, reset, rotations, mouse
toggle) the zoom distance stays inside [2, 20]; each zoom event moves it by
the fixed step ZOOM_SPEED and clamps at the bound. -/
theorem C7_zoom_invariant :
    (∀ evs : List CamInput,
      2 ≤ (runInputs evs).zoom_distance ∧ (runInputs evs).zoom_distance ≤ 20) ∧
    (∀ s : Camera, (applyInput initialSnapshot s .zoomIn).zoom_distance
      = max 2 (s.zoom_distance - ZOOM_SPEED)) ∧
    (∀ s : Camera, (applyInput initialSnapshot s .zoomOut).zoom_distance
      = min 20 (s.zoom_distance + ZOOM_SPEED)) := by
  refine ⟨fun evs => ?_, fun s => rfl, fun s => rfl⟩
  exact foldl_zoom_bounds initialSnapshot (by norm_num [initialSnapshot, snapshotOf, initialCamera])
    (by norm_num [initialSnapshot, snapshotOf, initialCamera]) evs initialCamera
    (by norm_num [initialCamera]) (by norm_num [initialCamera])

/-- C9: from every camera state reachable by a finite input sequence, an E
key-down sets rotation_x, rotation_y and zoom_distance exactly to the values
captured in the startup snapshot (which equal the startup camera fields). -/
theorem C9_reset_restores (evs : List CamInput) :
    (applyInput initialSnapshot (runInputs evs) .keyE).rotation_x
      = initialCamera.rotation_x ∧
    (applyInput initialSnapshot (runInputs evs) .keyE).rotation_y
      = initialCamera.rotation_y ∧
    (applyInput initialSnapshot (runInputs evs) .keyE).zoom_distance
      = initialCamera.zoom_distance :=
  ⟨rfl, rfl, rfl⟩

/-- C10: an E key-down writes only rotation_x, rotation_y and zoom_distance;
the whole resulting state is the record update of those three fields, and
mouse_captured in particular keeps its prior value. -/
theorem C10_reset_frame (init : Snapshot) (s : Camera) :
    applyInput init s .keyE =
      { s with rotation_x := init.rotation_x,
               rotation_y := init.rotation_y,
               zoom_distance := init.zoom_distance } ∧
    (applyInput init s .keyE).mouse_captured = s.mouse_captured :=
  ⟨rfl, rfl⟩

/-- C8: height evaluation is deterministic once the noise primitives and the
pseudo-random generator are fixed deterministic functions: the height of cell
(i, j) does not depend on the incoming generator state, for every noise type;
in particular a voronoi call draws the same feature-point set (a function of
the seed alone) whatever generator state it enters with, because of the
re-seed. -/
theorem C8_determinism {σ : Type}
    (pnoise snoise : ℝ → ℝ → ℕ → ℝ → ℝ → ℤ → ℝ)
    (seedFn : ℤ → σ) (nextFn : σ → ℝ × σ)
    (noiseType : String) (seed : ℤ) (size octaves : ℕ)
    (persistence lacunarity scale : ℝ) (i j : ℕ) (g₁ g₂ : σ) :
    (heightAtSt pnoise snoise seedFn nextFn noiseType seed size octaves
        persistence lacunarity scale g₁ i j).1
      = (heightAtSt pnoise snoise seedFn nextFn noiseType seed size octaves
        persistence lacunarity scale g₂ i j).1 ∧
    voronoiPtsFrom seedFn nextFn seed g₁ = voronoiPts seedFn nextFn seed ∧
    voronoiPtsFrom seedFn nextFn seed g₂ = voronoiPts seedFn nextFn seed := by
  refine ⟨?_, rfl, rfl⟩
  simp only [heightAtSt]
  split_ifs <;> rfl

/-- C3 (amended): a noise-type string outside the six recognized variants
that reaches _generate_height_map silently produces, cell by cell, exactly
the perlin output with the same seed and parameters; but such a string never
arrives via the command line, because the argparse choices list rejects it
with a usage error (modelled by parseNoiseArg returning none). -/
theorem C3_unknown_noise {σ : Type}
    (pnoise snoise : ℝ → ℝ → ℕ → ℝ → ℝ → ℤ → ℝ)
    (seedFn : ℤ → σ) (nextFn : σ → ℝ × σ)
    (s : String) (hs : s ∉ NOISE_CHOICES)
    (seed : ℤ) (size octaves : ℕ) (persistence lacunarity scale : ℝ)
    (g : σ) (i j : ℕ) :
    heightAtSt pnoise snoise seedFn nextFn s seed size octaves
        persistence lacunarity scale g i j
      = heightAtSt pnoise snoise seedFn nextFn "perlin" seed size octaves
        persistence lacunarity scale g i j ∧
    parseNoiseArg s = none := by
  have h6 : s ≠ "perlin" ∧ s ≠ "simplex" ∧ s ≠ "ridged" ∧ s ≠ "billow" ∧
      s ≠ "voronoi" ∧ s ≠ "combined" := by
    simp only [NOISE_CHOICES, List.mem_cons, List.mem_singleton,
      List.not_mem_nil, or_false] at hs
    push_neg at hs
    exact hs
  constructor
  · simp only [heightAtSt]
    rw [if_neg h6.1, if_neg h6.2.1, if_neg h6.2.2.1, if_neg h6.2.2.2.1,
      if_neg h6.2.2.2.2.1, if_neg h6.2.2.2.2.2]
    simp
  · simp only [parseNoiseArg]
    rw [if_neg hs]

/-- Counterexample to C3 as stated: the string foo is not a recognized
variant, and the command-line surface does not silently map it to perlin:
argparse rejects it (parseNoiseArg returns none, a usage error), so the
claim that the fallback also happens when the string arrives via the
command line is false. -/
theorem C3_counterexample :
    "foo" ∉ NOISE_CHOICES ∧ parseNoiseArg "foo" = none := by
  constructor
  · decide
  · rfl

/-- Witness for C3 at the concrete string foo with zero noise primitives. -/
theorem C3_witness :
    ("foo" ∉ NOISE_CHOICES) ∧
    (heightAtSt pzero pzero unitSeed (constNext 0) "foo" 0 25 6 (1/2) 2 5 () 0 0
       = heightAtSt pzero pzero unitSeed (constNext 0) "perlin" 0 25 6 (1/2) 2 5 () 0 0 ∧
     parseNoiseArg "foo" = none) :=
  ⟨by decide, C3_unknown_noise pzero pzero unitSeed (constNext 0) "foo"
    (by decide) 0 25 6 (1/2) 2 5 () 0 0⟩

/-- C2 (amended): the voronoi output is always at least -0.5 (the minimum
distance is nonnegative), and it is at most 0.5 exactly when some of the 10
feature points lies within Euclidean distance 2 of the query (the point list
is never empty, so the folded minimum is attained). Without a nearby feature
point the claimed upper bound is false (see the counterexample). -/
theorem C2_voronoi_bounds {σ : Type} (seedFn : ℤ → σ) (nextFn : σ → ℝ × σ)
    (seed : ℤ) (x y : ℝ) (g : σ) :
    -(1/2) ≤ (voronoiNoise seedFn nextFn seed x y g).1 ∧
    ((voronoiNoise seedFn nextFn seed x y g).1 ≤ 1/2 ↔
      ∃ p ∈ voronoiPts seedFn nextFn seed,
        (x - p.1) ^ 2 + (y - p.2) ^ 2 ≤ 4) := by
  have hlen := drawPoints_length nextFn 10 (seedFn seed)
  have hne : (drawPoints nextFn 10 (seedFn seed)).1 ≠ [] := by
    intro h
    rw [h] at hlen
    simp at hlen
  obtain ⟨p0, hp0⟩ := List.exists_mem_of_ne_nil _ hne
  simp only [voronoiNoise]
  have h0 : (0 : EReal) ≤ (drawPoints nextFn 10 (seedFn seed)).1.foldl
      (fun m q => min m ((Real.sqrt ((x - q.1) ^ 2 + (y - q.2) ^ 2) : ℝ) : EReal)) ⊤ :=
    le_foldl_minf _ le_top (fun q _ => EReal.coe_nonneg.mpr (Real.sqrt_nonneg _))
  have h0R := toReal_nonneg_of_ereal h0
  have hb : (drawPoints nextFn 10 (seedFn seed)).1.foldl
      (fun m q => min m ((Real.sqrt ((x - q.1) ^ 2 + (y - q.2) ^ 2) : ℝ) : EReal)) ⊤
      ≠ ⊥ := by
    intro hbb
    rw [hbb] at h0
    exact absurd h0 (by simp)
  have hp0le : (drawPoints nextFn 10 (seedFn seed)).1.foldl
      (fun m q => min m ((Real.sqrt ((x - q.1) ^ 2 + (y - q.2) ^ 2) : ℝ) : EReal)) ⊤
      ≤ ((Real.sqrt ((x - p0.1) ^ 2 + (y - p0.2) ^ 2) : ℝ) : EReal) :=
    foldl_minf_le_of_mem _ hp0 ⊤
  have htop : (drawPoints nextFn 10 (seedFn seed)).1.foldl
      (fun m q => min m ((Real.sqrt ((x - q.1) ^ 2 + (y - q.2) ^ 2) : ℝ) : EReal)) ⊤
      ≠ ⊤ := by
    intro hT
    rw [hT] at hp0le
    exact absurd (top_le_iff.mp hp0le) (EReal.coe_ne_top _)
  refine ⟨by linarith, ?_, ?_⟩
  · intro hle
    have hM2 : ((drawPoints nextFn 10 (seedFn seed)).1.foldl
        (fun m q => min m ((Real.sqrt ((x - q.1) ^ 2 + (y - q.2) ^ 2) : ℝ) : EReal)) ⊤).toReal
        ≤ 2 := by linarith
    rcases foldl_minf_attains
        (fun q : ℝ × ℝ => ((Real.sqrt ((x - q.1) ^ 2 + (y - q.2) ^ 2) : ℝ) : EReal))
        (drawPoints nextFn 10 (seedFn seed)).1 ⊤ with h | ⟨p, hp, h⟩
    · exact absurd h htop
    · refine ⟨p, hp, ?_⟩
      rw [h, EReal.toReal_coe] at hM2
      have hd0 : 0 ≤ (x - p.1) ^ 2 + (y - p.2) ^ 2 := by positivity
      nlinarith [Real.sq_sqrt hd0, Real.sqrt_nonneg ((x - p.1) ^ 2 + (y - p.2) ^ 2)]
  · intro hclose
    obtain ⟨p, hp, hd⟩ := hclose
    have h1 : (drawPoints nextFn 10 (seedFn seed)).1.foldl
        (fun m q => min m ((Real.sqrt ((x - q.1) ^ 2 + (y - q.2) ^ 2) : ℝ) : EReal)) ⊤
        ≤ ((Real.sqrt ((x - p.1) ^ 2 + (y - p.2) ^ 2) : ℝ) : EReal) :=
      foldl_minf_le_of_mem _ hp ⊤
    have h2 : Real.sqrt ((x - p.1) ^ 2 + (y - p.2) ^ 2) ≤ 2 := by
      have h4 : Real.sqrt ((x - p.1) ^ 2 + (y - p.2) ^ 2) ≤ Real.sqrt 4 :=
        Real.sqrt_le_sqrt hd
      have h5 : Real.sqrt 4 = 2 := by
        rw [show (4 : ℝ) = 2 ^ 2 by norm_num, Real.sqrt_sq (by norm_num : (0:ℝ) ≤ 2)]
      linarith
    have h3 := EReal.toReal_le_toReal
      (le_trans h1 (EReal.coe_le_coe_iff.mpr h2)) hb (EReal.coe_ne_top 2)
    rw [EReal.toReal_coe] at h3
    linarith

/-- Counterexample to C2 as stated: a pseudo-random generator whose every
uniform draw in [0,1) returns 0.9 is admissible and puts the 10 feature
points all at (9, 9), inside [0,10) squared; the query (nx, ny) = (0, 0)
(grid cell i = j = 0 at size 25, scale 5, so nx = 0/25*5) is in the
evaluated domain; the voronoi output there is sqrt(162)/2 - 0.5, about 5.86,
which is strictly greater than 0.5, refuting the claimed [-0.5, 0.5] bound. -/
theorem C2_counterexample :
    ((0:ℝ) ≤ 9/10 ∧ (9/10 : ℝ) < 1) ∧
    1/2 < (voronoiNoise unitSeed (constNext (9/10)) 7
      ((0:ℝ)/25*5) ((0:ℝ)/25*5) ()).1 := by
  refine ⟨⟨by norm_num, by norm_num⟩, ?_⟩
  simp only [voronoiNoise]
  rw [drawPoints_const (9/10) 10 (unitSeed 7)]
  have hfold : (List.replicate 10 ((9/10 : ℝ) * 10, (9/10 : ℝ) * 10)).foldl
      (fun m q => min m ((Real.sqrt (((0:ℝ)/25*5 - q.1) ^ 2 + ((0:ℝ)/25*5 - q.2) ^ 2) : ℝ) : EReal)) ⊤
      = min (⊤ : EReal)
        ((Real.sqrt (((0:ℝ)/25*5 - (9/10 : ℝ) * 10) ^ 2 + ((0:ℝ)/25*5 - (9/10 : ℝ) * 10) ^ 2) : ℝ) : EReal) :=
    foldl_minf_replicate _ _ 9 ⊤
  rw [hfold, min_eq_right le_top, EReal.toReal_coe]
  have hs : (2:ℝ) < Real.sqrt (((0:ℝ)/25*5 - (9/10 : ℝ) * 10) ^ 2 + ((0:ℝ)/25*5 - (9/10 : ℝ) * 10) ^ 2) := by
    rw [Real.lt_sqrt (by norm_num : (0:ℝ) ≤ 2)]
    norm_num
  linarith
